import Mathlib

/-!
Verification development for the Temperature-Zephyr weather service
(`src/server.js`).

Embedding conventions:
* Calendar dates (`fetch_date`, `target_date`) are day numbers (`Int`):
  the JS code manipulates `YYYY-MM-DD` strings, whose ordering and
  equality coincide with the ordering of day numbers.
* Wall-clock time (`new Date()`) is a `Nat` counting minutes since the
  epoch (the server clock runs in UTC, as in the deployment container).
* The `weather_data` table is a `List Row`; SQL `INSERT ... ON CONFLICT
  (city_name, fetch_date, target_date, hour) DO UPDATE SET temperature`
  is `upsert` below, which updates the conflicting row in place or
  appends a fresh row.
* Temperatures are `Int` (the DB column is a `DECIMAL(5,2)`; only
  equality of temperatures matters to the claims, so the scale is
  irrelevant).
* An upstream hourly timestamp `"YYYY-MM-DDTHH:00"` is a pair of its
  date part (`timeStr.split('T')[0]`) and its hour part
  (`parseInt(timeStr.split('T')[1].split(':')[0])`, always 0..23 in an
  ISO timestamp), modelled as the structure `Timestamp`.
* A JS value that may be `null`/`undefined` or absent is an `Option`;
  a JS exception escaping a function is the `Except.error` branch.
-/

namespace Zephyr

/-- A calendar date, as a day number. -/
abbrev Day := Int

/-- One row of the `weather_data` table (`initDB`, src/server.js:29-40).
The `id`/`created_at` columns play no role in any claim and are omitted.
`hour` is parsed from an ISO hourly timestamp, hence 0..23. -/
structure Row where
  city : String
  fetch : Day
  target : Day
  hour : Fin 24
  temp : Int
  deriving DecidableEq, Repr

/-- The conflict target of the unique constraint
`UNIQUE(city_name, fetch_date, target_date, hour)`. -/
def rkey (r : Row) : String × Day × Day × Fin 24 :=
  (r.city, r.fetch, r.target, r.hour)

/-- The configured city list (src/server.js:15-24); latitude/longitude
only feed the upstream URL and are dropped. -/
def cities : List String :=
  ["Prague", "Brno", "Plzen", "Ostrava", "Berlin", "Munich", "Budapest", "Debrecen"]

/-- `getLocalDate` (src/server.js:52-58): take the current time, add one
hour (`setHours(getHours()+1)`, the fixed UTC+1 offset), add
`offsetDays` days (`setDate(getDate()+offsetDays)`), and keep the UTC
date part of `toISOString()`.  With `t` in minutes since the epoch the
result is the day number of `t + 60` minutes, shifted by `offsetDays`. -/
def getLocalDate (t : Nat) (offsetDays : Int) : Day :=
  (((t + 60) / 1440 : Nat) : Int) + offsetDays

/-- The plain UTC calendar date of the instant `t` (what
`new Date().toISOString().split('T')[0]` yields with no adjustment). -/
def utcDay (t : Nat) : Day :=
  ((t / 1440 : Nat) : Int)

/-- An entry of the upstream `hourly.time` array: an ISO timestamp
`"YYYY-MM-DDTHH:00"`, split by `storeWeatherData` into its date part
(the target date) and its hour (0..23). -/
structure Timestamp where
  targetDay : Day
  hour : Fin 24
  deriving DecidableEq, Repr

/-- The `hourly` object of an upstream response; either array may be
absent (the upstream is untrusted). -/
structure HourlyBlock where
  time : Option (List Timestamp)
  temperature_2m : Option (List Int)
  deriving DecidableEq, Repr

/-- A parsed upstream response body; `hourly` may be absent. -/
structure WeatherData where
  hourly : Option HourlyBlock
  deriving DecidableEq, Repr

/-- Does the table hold a row with conflict key `k`?  (The condition
under which `INSERT ... ON CONFLICT` takes its `DO UPDATE` branch.) -/
def hasKey (db : List Row) (k : String × Day × Day × Fin 24) : Bool :=
  db.any fun s => decide (rkey s = k)

/-- Overwrite the temperature of `s` when it is the row `r` conflicts
with, leave it alone otherwise. -/
def updateWith (r s : Row) : Row :=
  if rkey s = rkey r then { s with temp := r.temp } else s

/-- `INSERT INTO weather_data ... ON CONFLICT (city_name, fetch_date,
target_date, hour) DO UPDATE SET temperature = $5`
(src/server.js:94-99): if a row with the same conflict key exists its
temperature is overwritten, otherwise the new row is appended.  (Under
the unique constraint at most one row can conflict; the `map` touches
exactly that row.) -/
def upsert (db : List Row) (r : Row) : List Row :=
  if hasKey db (rkey r) then db.map (updateWith r) else db ++ [r]

/-- Run the per-sample upsert loop over an already-derived row list. -/
def storeRows (db : List Row) (rows : List Row) : List Row :=
  rows.foldl upsert db

/-- The rows derived from the upstream arrays by the loop in
`storeWeatherData` (src/server.js:87-104): the i-th timestamp paired
with the i-th temperature.  Iterations past the end of the temperature
array (`temps[i]` is `undefined`, stored as SQL `NULL`, rejected by the
`NOT NULL` constraint, caught per-row) store nothing, so the derived
rows are the pointwise zip of the two arrays. -/
def rowsOf (city : String) (fd : Day) (times : List Timestamp) (temps : List Int) :
    List Row :=
  List.zipWith (fun (t : Timestamp) (temp : Int) =>
    { city := city, fetch := fd, target := t.targetDay, hour := t.hour, temp := temp }) times temps

/-- `storeWeatherData(cityName, weatherData)` (src/server.js:76-107).
`wd = none` is the `null` returned by `fetchWeatherData` on a transport
or JSON error (its `catch`, src/server.js:69-72).  The guard
`if (!weatherData || !weatherData.hourly)` logs and returns with the
table untouched.  Past the guard, `times = hourly.time` and
`temps = hourly.temperature_2m` are read without a check:
* if `time` is absent, the loop bound `times.length` throws a
  `TypeError` that escapes the function (`Except.error`);
* if `temperature_2m` is absent and `time` is non-empty, `temps[i]`
  on the first iteration likewise throws;
* otherwise every in-range (timestamp, temperature) pair is upserted
  with `fetch_date = getLocalDate(0)` computed once at entry. -/
def storeWeatherData (db : List Row) (cityName : String) (wd : Option WeatherData)
    (now : Nat) : Except Unit (List Row) :=
  match wd with
  | none => .ok db
  | some w =>
    match w.hourly with
    | none => .ok db
    | some hb =>
      match hb.time with
      | none => .error ()
      | some times =>
        match hb.temperature_2m with
        | some temps => .ok (storeRows db (rowsOf cityName (getLocalDate now 0) times temps))
        | none =>
          match times with
          | [] => .ok db
          | _ :: _ => .error ()

/-- Outcome of one run of the ingestion batch: the final table when the
loop finishes, or the table at the point where an uncaught exception
aborted it. -/
inductive BatchOutcome where
  | completed (db : List Row)
  | crashed (db : List Row)
  deriving DecidableEq, Repr

/-- The city loop of `fetchAllCities` (src/server.js:113-118): each
city's response is fetched (`rsp c`; `none` models the `null` of a
failed fetch) and stored; an exception escaping `storeWeatherData`
rejects the whole batch. -/
def runBatch (rsp : String → Option WeatherData) (now : Nat) :
    List String → List Row → BatchOutcome
  | [], db => .completed db
  | c :: cs, db =>
    match storeWeatherData db c (rsp c) now with
    | .error _ => .crashed db
    | .ok db' => runBatch rsp now cs db'

/-- `fetchAllCities()` (src/server.js:110-121): run the batch over the
configured city list.  The JS function itself returns `undefined`; the
table is the threaded state. -/
def fetchAllCities (rsp : String → Option WeatherData) (now : Nat)
    (db : List Row) : BatchOutcome :=
  runBatch rsp now cities db

/-- `cleanupOldData()` (src/server.js:124-134): `DELETE FROM
weather_data WHERE fetch_date < cutoff` with `cutoff` the plain UTC
date of `now` minus 14 days (`new Date(); setDate(getDate() - 14)`).
The surviving table keeps exactly the rows not matching the
`WHERE` clause. -/
def cleanupOldData (db : List Row) (now : Nat) : List Row :=
  db.filter fun r => decide (¬ r.fetch < utcDay now - 14)

/-- The caller-visible outcome of `POST /api/fetch`
(src/server.js:254-263): `{success: true, ...}` or a 500 error body. -/
inductive FetchResponse where
  | success
  | failure
  deriving DecidableEq, Repr

/-- The `POST /api/fetch` handler (src/server.js:254-263): run
`fetchAllCities`, then `cleanupOldData`, then answer `{success: true,
message: ...}`; any exception is caught and answered with a 500.  The
second component is the table it leaves behind. -/
def handleFetch (rsp : String → Option WeatherData) (now : Nat)
    (db : List Row) : FetchResponse × List Row :=
  match fetchAllCities rsp now db with
  | .completed db' => (.success, cleanupOldData db' now)
  | .crashed db' => (.failure, db')

/-! ## Reconciliation query engine (`GET /api/weather/:city`) -/

/-- The `SELECT hour, temperature ... WHERE city_name = $1 AND
target_date = $2 AND fetch_date = $2` rows (src/server.js:157-173);
the `ORDER BY hour` does not affect the filled arrays below. -/
def actualRows (db : List Row) (c : String) (d : Day) : List Row :=
  db.filter fun r => decide (r.city = c ∧ r.target = d ∧ r.fetch = d)

/-- The rows matching the forecast `WHERE` clause `city_name = $1 AND
target_date = $2 AND fetch_date < $2` (src/server.js:177-193). -/
def forecastPool (db : List Row) (c : String) (d : Day) : List Row :=
  db.filter fun r => decide (r.city = c ∧ r.target = d ∧ r.fetch < d)

/-- The forecast candidates for one hour slot. -/
def forecastCandidates (db : List Row) (c : String) (d : Day) (h : Fin 24) : List Row :=
  (forecastPool db c d).filter fun r => decide (r.hour = h)

/-- The row a `SELECT DISTINCT ON (hour) ... ORDER BY hour,
fetch_date ASC` keeps for one hour: the candidate with the least
`fetch_date` (under the unique constraint no two candidates share a
`fetch_date`, so the choice is determined). -/
def minFetch : List Row → Option Row
  | [] => none
  | r :: rs =>
    match minFetch rs with
    | none => some r
    | some s => if s.fetch < r.fetch then some s else some r

/-- The loop `result.todayActual[row.hour] = parseFloat(row.temperature)`
(src/server.js:206-219) over a fresh `Array(24).fill(null)`
(src/server.js:199-202): start from 24 `null`s and write each row's
temperature at its hour index; a later row for the same hour wins. -/
def fillSlots (rows : List Row) : List (Option Int) :=
  rows.foldl (fun acc r => acc.set r.hour.val (some r.temp)) (List.replicate 24 none)

/-- The served actual series for city `c` and target date `d`. -/
def actualSeries (db : List Row) (c : String) (d : Day) : List (Option Int) :=
  fillSlots (actualRows db c d)

/-- The slot the forecast query + fill loop produce for hour `h`:
the `DISTINCT ON (hour)` query returns (at most) one row per hour —
the least-`fetch_date` candidate — and the fill loop writes it at
index `h`. -/
def forecastSlot (db : List Row) (c : String) (d : Day) (h : Fin 24) : Option Int :=
  (minFetch (forecastCandidates db c d h)).map (·.temp)

/-- The served forecast series for city `c` and target date `d`. -/
def forecastSeries (db : List Row) (c : String) (d : Day) : List (Option Int) :=
  List.ofFn fun h : Fin 24 => forecastSlot db c d h

/-- Reading slot `h` of a served 24-element series. -/
def slotAt (l : List (Option Int)) (h : Fin 24) : Option Int :=
  l.getD h.val none

/-- The response body of `GET /api/weather/:city` (src/server.js:196-203). -/
structure WeatherResult where
  today : Day
  yesterday : Day
  todayActual : List (Option Int)
  yesterdayActual : List (Option Int)
  todayForecast : List (Option Int)
  yesterdayForecast : List (Option Int)
  deriving DecidableEq, Repr

/-- The possible HTTP answers of the weather route: a 200 with the
result body, a 404 `{error}` ("not found"), or a 500 `{error}`
("storage error"). -/
inductive ApiResponse where
  | ok (res : WeatherResult)
  | notFound
  | storageError
  deriving DecidableEq, Repr

/-- The `GET /api/weather/:city` handler (src/server.js:148-226).
`storage = none` models the storage reads failing (`pool.query`
throwing), answered by the `catch` with the 500 body; otherwise the
route unconditionally builds and serves the result for the requested
city name — there is no check of `cityName` against `cities`. -/
def handleWeather (storage : Option (List Row)) (cityName : String) (now : Nat) :
    ApiResponse :=
  match storage with
  | none => .storageError
  | some db =>
    let today := getLocalDate now 0
    let yesterday := getLocalDate now (-1)
    .ok
      { today := today
        yesterday := yesterday
        todayActual := actualSeries db cityName today
        yesterdayActual := actualSeries db cityName yesterday
        todayForecast := forecastSeries db cityName today
        yesterdayForecast := forecastSeries db cityName yesterday }

/-- Key-uniqueness of the table, the invariant the `UNIQUE(city_name,
fetch_date, target_date, hour)` constraint enforces. -/
def NoDupKeys (db : List Row) : Prop :=
  db.Pairwise fun r s => rkey r ≠ rkey s

/-! ## Generic helper lemmas -/

/-- Last-write-wins accumulator: fold `l` keeping the value `f b` of the
last element for which `f` fires. -/
def lastHit {β α : Type _} (f : β → Option α) (l : List β) : Option α :=
  l.foldl (fun acc b => match f b with | some a => some a | none => acc) none

/-- The temperature the last element of `rows` with conflict key `k`
carries, if any: what a sequence of upserts leaves at key `k`. -/
def lastTempOf (rows : List Row) (k : String × Day × Day × Fin 24) : Option Int :=
  lastHit (fun r => if rkey r = k then some r.temp else none) rows

/-- Rewrite a row to the final temperature `rows` assigns to its key. -/
def overrideTemp (rows : List Row) (s : Row) : Row :=
  match lastTempOf rows (rkey s) with
  | some t => { s with temp := t }
  | none => s

/-- A well-formed upstream response with a single sample: target day 0,
hour 12, temperature 5 (used as a concrete ingestion input). -/
def wdGood : WeatherData :=
  { hourly := some { time := some [⟨0, 12⟩], temperature_2m := some [5] } }

/-- An upstream response whose `hourly` object exists but lacks the
`time` array (a parse-failure shape the code does not guard against). -/
def wdMissingTime : WeatherData :=
  { hourly := some { time := none, temperature_2m := some [5] } }

/-- A fetch environment in which Prague's response lacks `hourly.time`
and every other city answers well-formed data. -/
def rspCrash : String → Option WeatherData :=
  fun c => if c = "Prague" then some wdMissingTime else some wdGood

/-- A fetch environment in which every city answers well-formed data. -/
def rspAllGood : String → Option WeatherData :=
  fun _ => some wdGood

/-- A fetch environment in which every city's fetch fails (transport
error: `fetchWeatherData` returns `null`). -/
def rspAllFail : String → Option WeatherData :=
  fun _ => none

/-- A fetch environment in which only Prague's fetch fails. -/
def rspSkip : String → Option WeatherData :=
  fun c => if c = "Prague" then none else some wdGood

theorem lastHit_generalize {β α : Type _} (f : β → Option α) :
    ∀ (l : List β) (init : Option α),
      (l.foldl (fun acc b => match f b with | some a => some a | none => acc) init)
        = match lastHit f l with | some t => some t | none => init := by
  intro l
  induction l with
  | nil => intro init; rfl
  | cons b l ih =>
    intro init
    show (l.foldl _ (match f b with | some a => some a | none => init)) = _
    rw [ih]
    show _ = match (l.foldl _ (match f b with | some a => some a | none => none)) with
      | some t => some t | none => init
    rw [ih]
    cases lastHit f l with
    | some t => rfl
    | none => cases f b <;> rfl

theorem lastHit_cons {β α : Type _} (f : β → Option α) (b : β) (l : List β) :
    lastHit f (b :: l)
      = match lastHit f l with | some t => some t | none => f b := by
  have hstep : lastHit f (b :: l)
      = l.foldl (fun acc b => match f b with | some a => some a | none => acc)
          (match f b with | some a => some a | none => none) := rfl
  rw [hstep, lastHit_generalize]
  cases lastHit f l with
  | some t => rfl
  | none => cases f b <;> rfl

theorem lastHit_concat {β α : Type _} (f : β → Option α) (l : List β) (b : β) :
    lastHit f (l ++ [b])
      = match f b with | some a => some a | none => lastHit f l := by
  show ((l ++ [b]).foldl _ none) = _
  rw [List.foldl_append]
  rfl

theorem lastHit_eq_none_iff {β α : Type _} (f : β → Option α) (l : List β) :
    lastHit f l = none ↔ ∀ b ∈ l, f b = none := by
  induction l with
  | nil => simp [lastHit]
  | cons b l ih =>
    rw [lastHit_cons]
    cases hl : lastHit f l with
    | some t =>
      refine ⟨fun h => Option.noConfusion h, fun h => ?_⟩
      exact absurd (ih.mpr fun b' hb' => h b' (List.mem_cons_of_mem b hb')) (by simp [hl])
    | none =>
      constructor
      · intro hfb b' hb'
        rcases List.mem_cons.mp hb' with rfl | hb'
        · exact hfb
        · exact ih.mp hl b' hb'
      · intro h; exact h b (List.mem_cons_self b l)

/-- `List.set` then `getD` at the written index (the index in range). -/
theorem getD_set_self {α : Type _} :
    ∀ (l : List α) (i : Nat) (a d : α), i < l.length → (l.set i a).getD i d = a := by
  intro l
  induction l with
  | nil => intro i a d h; cases h
  | cons x l ih =>
    intro i a d h
    cases i with
    | zero => rfl
    | succ n =>
      show (x :: l.set n a).getD (n + 1) d = a
      rw [List.getD_cons_succ]
      exact ih n a d (Nat.lt_of_succ_lt_succ h)

/-- `List.set` then `getD` at a different index. -/
theorem getD_set_ne {α : Type _} :
    ∀ (l : List α) (i j : Nat) (a d : α), i ≠ j → (l.set i a).getD j d = l.getD j d := by
  intro l
  induction l with
  | nil => intro i j a d _; rfl
  | cons x l ih =>
    intro i j a d hij
    cases i with
    | zero =>
      cases j with
      | zero => exact absurd rfl hij
      | succ m => rfl
    | succ n =>
      cases j with
      | zero => rfl
      | succ m =>
        show (x :: l.set n a).getD (m + 1) d = _
        rw [List.getD_cons_succ, List.getD_cons_succ]
        exact ih n m a d (fun h => hij (by rw [h]))

/-- A map that fixes every element of a list is the identity on it. -/
theorem map_id_on {α : Type _} (f : α → α) :
    ∀ (l : List α), (∀ a ∈ l, f a = a) → l.map f = l := by
  intro l
  induction l with
  | nil => intro _; rfl
  | cons x l ih =>
    intro h
    show f x :: l.map f = x :: l
    rw [h x (List.mem_cons_self x l), ih (fun a ha => h a (List.mem_cons_of_mem x ha))]

/-- Congruence for `map` over a fixed list. -/
theorem map_ext_on {α β : Type _} (f g : α → β) :
    ∀ (l : List α), (∀ a ∈ l, f a = g a) → l.map f = l.map g := by
  intro l
  induction l with
  | nil => intro _; rfl
  | cons x l ih =>
    intro h
    show f x :: l.map f = g x :: l.map g
    rw [h x (List.mem_cons_self x l), ih (fun a ha => h a (List.mem_cons_of_mem x ha))]

/-- Membership in a `zipWith` comes from members of both lists. -/
theorem mem_zipWith_elim {α β γ : Type _} (f : α → β → γ) :
    ∀ (l₁ : List α) (l₂ : List β) (c : γ), c ∈ List.zipWith f l₁ l₂ →
      ∃ a b, a ∈ l₁ ∧ b ∈ l₂ ∧ c = f a b := by
  intro l₁
  induction l₁ with
  | nil => intro l₂ c h; cases h
  | cons x l₁ ih =>
    intro l₂ c h
    cases l₂ with
    | nil => cases h
    | cons y l₂ =>
      rcases List.mem_cons.mp h with rfl | h'
      · exact ⟨x, y, List.mem_cons_self x l₁, List.mem_cons_self y l₂, rfl⟩
      · rcases ih l₂ c h' with ⟨a, b, ha, hb, hc⟩
        exact ⟨a, b, List.mem_cons_of_mem x ha, List.mem_cons_of_mem y hb, hc⟩

/-! ## Upsert and key lemmas -/

theorem rkey_updateWith (r s : Row) : rkey (updateWith r s) = rkey s := by
  unfold updateWith
  split <;> rfl

theorem hasKey_iff (db : List Row) (k : String × Day × Day × Fin 24) :
    hasKey db k = true ↔ k ∈ db.map rkey := by
  unfold hasKey
  rw [List.any_eq_true]
  constructor
  · rintro ⟨s, hs, hk⟩
    exact List.mem_map.mpr ⟨s, hs, (decide_eq_true_iff.mp hk)⟩
  · rintro hk
    rcases List.mem_map.mp hk with ⟨s, hs, hk⟩
    exact ⟨s, hs, decide_eq_true_iff.mpr hk⟩

theorem map_rkey_updateWith (db : List Row) (r : Row) :
    (db.map (updateWith r)).map rkey = db.map rkey := by
  rw [List.map_map]
  exact map_ext_on _ _ db fun s _ => rkey_updateWith r s

theorem upsert_of_hasKey {db : List Row} {r : Row} (h : hasKey db (rkey r) = true) :
    upsert db r = db.map (updateWith r) := by
  unfold upsert
  rw [h]
  rfl

theorem upsert_of_not_hasKey {db : List Row} {r : Row} (h : hasKey db (rkey r) = false) :
    upsert db r = db ++ [r] := by
  unfold upsert
  rw [h]
  rfl

theorem mem_keys_upsert {db : List Row} {r : Row} {k : String × Day × Day × Fin 24}
    (h : k ∈ db.map rkey) : k ∈ (upsert db r).map rkey := by
  unfold upsert
  split
  · rwa [map_rkey_updateWith]
  · rw [List.map_append]
    exact List.mem_append_left _ h

theorem self_mem_keys_upsert (db : List Row) (r : Row) :
    rkey r ∈ (upsert db r).map rkey := by
  unfold upsert
  split
  · next h => rw [map_rkey_updateWith]; exact (hasKey_iff db (rkey r)).mp h
  · rw [List.map_append]
    exact List.mem_append_right _ (by simp)

theorem noDupKeys_upsert {db : List Row} (r : Row) (h : NoDupKeys db) :
    NoDupKeys (upsert db r) := by
  unfold upsert
  split
  · next =>
    unfold NoDupKeys at h ⊢
    rw [List.pairwise_map]
    refine h.imp ?_
    intro a b hab
    rwa [rkey_updateWith, rkey_updateWith]
  · next hk =>
    unfold NoDupKeys at h ⊢
    rw [List.pairwise_append]
    refine ⟨h, List.pairwise_singleton _ _, ?_⟩
    intro a ha b hb
    rw [List.mem_singleton] at hb
    intro hkey
    apply hk
    refine (hasKey_iff db (rkey r)).mpr ?_
    rw [← hb, ← hkey]
    exact List.mem_map_of_mem rkey ha

/-! ## storeRows: characterization, uniqueness, idempotence -/

theorem noDupKeys_storeRows (rows : List Row) :
    ∀ db : List Row, NoDupKeys db → NoDupKeys (storeRows db rows) := by
  induction rows with
  | nil => intro db h; exact h
  | cons r rest ih =>
    intro db h
    exact ih (upsert db r) (noDupKeys_upsert r h)

theorem mem_keys_storeRows (rows : List Row) :
    ∀ (db : List Row) (k : String × Day × Day × Fin 24),
      k ∈ db.map rkey → k ∈ (storeRows db rows).map rkey := by
  induction rows with
  | nil => intro db k h; exact h
  | cons r rest ih =>
    intro db k h
    exact ih (upsert db r) k (mem_keys_upsert h)

theorem keys_of_rows_mem_storeRows (rows : List Row) :
    ∀ (db : List Row) (r : Row), r ∈ rows → rkey r ∈ (storeRows db rows).map rkey := by
  induction rows with
  | nil => intro db r h; cases h
  | cons x rest ih =>
    intro db r h
    rcases List.mem_cons.mp h with rfl | h'
    · exact mem_keys_storeRows rest (upsert db r) (rkey r) (self_mem_keys_upsert db r)
    · exact ih (upsert db x) r h'

theorem lastTempOf_cons (x : Row) (rest : List Row) (k : String × Day × Day × Fin 24) :
    lastTempOf (x :: rest) k
      = match lastTempOf rest k with
        | some t => some t
        | none => if rkey x = k then some x.temp else none := by
  unfold lastTempOf
  rw [lastHit_cons]
  cases lastHit (fun r => if rkey r = k then some r.temp else none) rest <;> rfl

theorem lastTempOf_concat (q : List Row) (x : Row) (k : String × Day × Day × Fin 24) :
    lastTempOf (q ++ [x]) k
      = if rkey x = k then some x.temp else lastTempOf q k := by
  unfold lastTempOf
  rw [lastHit_concat]
  by_cases hx : rkey x = k
  · simp only [if_pos hx]
  · simp only [if_neg hx]

/-- Collapsing two temperature updates of the same row. -/
theorem updateWith_temp (s : Row) (t : Int) :
    ({ s with temp := t } : Row).temp = t := rfl

theorem overrideTemp_updateWith (x : Row) (rest : List Row) (s : Row) :
    overrideTemp rest (updateWith x s) = overrideTemp (x :: rest) s := by
  unfold overrideTemp
  rw [rkey_updateWith, lastTempOf_cons]
  cases hl : lastTempOf rest (rkey s) with
  | some t =>
    show ({ updateWith x s with temp := t } : Row) = { s with temp := t }
    unfold updateWith
    by_cases hx : rkey s = rkey x
    · rw [if_pos hx]
    · rw [if_neg hx]
  | none =>
    by_cases hx : rkey x = rkey s
    · have hupd : updateWith x s = { s with temp := x.temp } := by
        unfold updateWith
        rw [if_pos hx.symm]
      rw [hupd, if_pos hx]
    · have hupd : updateWith x s = s := by
        unfold updateWith
        rw [if_neg (fun h => hx h.symm)]
      rw [hupd, if_neg hx]

/-- When every incoming key is already present, the upsert loop is a
pure in-place temperature override. -/
theorem storeRows_eq_map (rows : List Row) :
    ∀ db : List Row, (∀ r ∈ rows, rkey r ∈ db.map rkey) →
      storeRows db rows = db.map (overrideTemp rows) := by
  induction rows with
  | nil =>
    intro db _
    exact (map_id_on _ db fun s _ => rfl).symm
  | cons x rest ih =>
    intro db hkeys
    have hx : hasKey db (rkey x) = true :=
      (hasKey_iff db (rkey x)).mpr (hkeys x (List.mem_cons_self x rest))
    have hstep : storeRows db (x :: rest) = storeRows (db.map (updateWith x)) rest := by
      show storeRows (upsert db x) rest = _
      rw [upsert_of_hasKey hx]
    rw [hstep, ih (db.map (updateWith x))
      (fun r hr => by
        rw [map_rkey_updateWith]
        exact hkeys r (List.mem_cons_of_mem x hr))]
    rw [List.map_map]
    exact map_ext_on _ _ db fun s _ => overrideTemp_updateWith x rest s

/-- Every row present after the upsert loop carries the final
temperature the loop assigned to its key (if the loop touched it). -/
theorem temp_eq_lastTempOf (rows : List Row) :
    ∀ (db : List Row) (r : Row) (t : Int),
      r ∈ storeRows db rows → lastTempOf rows (rkey r) = some t → r.temp = t := by
  induction rows using List.reverseRecOn with
  | nil =>
    intro db r t _ hlast
    simp [lastTempOf, lastHit] at hlast
  | append_singleton q x ih =>
    intro db r t hmem hlast
    have hfold : storeRows db (q ++ [x]) = upsert (storeRows db q) x := by
      unfold storeRows
      rw [List.foldl_append]
      rfl
    rw [hfold] at hmem
    rw [lastTempOf_concat] at hlast
    by_cases hcase : hasKey (storeRows db q) (rkey x) = true
    · rw [upsert_of_hasKey hcase] at hmem
      rcases List.mem_map.mp hmem with ⟨s, hs, rfl⟩
      by_cases hks : rkey s = rkey x
      · rw [rkey_updateWith, hks, if_pos rfl] at hlast
        cases hlast
        unfold updateWith
        rw [if_pos hks]
      · rw [rkey_updateWith, if_neg (fun h => hks h.symm)] at hlast
        have hupd : (updateWith x s) = s := by unfold updateWith; rw [if_neg hks]
        rw [hupd]
        exact ih db s t hs hlast
    · have hfalse : hasKey (storeRows db q) (rkey x) = false := by
        cases h : hasKey (storeRows db q) (rkey x)
        · rfl
        · exact absurd h hcase
      rw [upsert_of_not_hasKey hfalse] at hmem
      rcases List.mem_append.mp hmem with hs | hs
      · have hne : rkey x ≠ rkey r := by
          intro h
          exact hcase ((hasKey_iff _ _).mpr (h ▸ List.mem_map_of_mem rkey hs))
        rw [if_neg hne] at hlast
        exact ih db r t hs hlast
      · rw [List.mem_singleton] at hs
        subst hs
        rw [if_pos rfl] at hlast
        cases hlast
        rfl

/-- Replaying the same upsert sequence is a no-op. -/
theorem storeRows_idem (db : List Row) (rows : List Row) :
    storeRows (storeRows db rows) rows = storeRows db rows := by
  rw [storeRows_eq_map rows (storeRows db rows)
    (fun r hr => keys_of_rows_mem_storeRows rows db r hr)]
  refine map_id_on _ _ ?_
  intro s hs
  unfold overrideTemp
  cases hl : lastTempOf rows (rkey s) with
  | none => rfl
  | some t =>
    have hts : s.temp = t := temp_eq_lastTempOf rows db s t hs hl
    show ({ s with temp := t } : Row) = s
    rw [← hts]

/-! ## Query-engine lemmas -/

/-- In a key-unique table, two rows with the same conflict key are the
same row. -/
theorem rkey_inj {db : List Row} (h : NoDupKeys db) {r s : Row}
    (hr : r ∈ db) (hs : s ∈ db) (hk : rkey r = rkey s) : r = s := by
  by_contra hne
  exact (h.forall (fun a b hab => fun he => hab he.symm) hr hs hne) hk

/-- The hour-slot write of `fillSlots`, one element at a time. -/
theorem fillSlots_foldl_getD (h : Fin 24) :
    ∀ (rows : List Row) (init : List (Option Int)), init.length = 24 →
      ((rows.foldl (fun acc r => acc.set r.hour.val (some r.temp)) init).getD h.val none)
        = match lastHit (fun r => if r.hour = h then some r.temp else none) rows with
          | some t => some t
          | none => init.getD h.val none := by
  intro rows
  induction rows with
  | nil =>
    intro init _
    rfl
  | cons r rest ih =>
    intro init hlen
    show ((rest.foldl _ (init.set r.hour.val (some r.temp))).getD h.val none) = _
    rw [ih (init.set r.hour.val (some r.temp)) (by rw [List.length_set]; exact hlen),
      lastHit_cons]
    cases lastHit (fun r => if r.hour = h then some r.temp else none) rest with
    | some t => rfl
    | none =>
      by_cases hrh : r.hour = h
      · rw [if_pos hrh, ← hrh]
        exact getD_set_self init r.hour.val (some r.temp) none
          (by rw [hlen]; exact r.hour.isLt)
      · rw [if_neg hrh]
        exact getD_set_ne init r.hour.val h.val (some r.temp) none
          (fun hv => hrh (Fin.ext hv))

theorem getD_replicate_none (n : Nat) :
    ∀ i : Nat, (List.replicate n (none : Option Int)).getD i none = none := by
  induction n with
  | zero => intro i; rfl
  | succ m ih =>
    intro i
    cases i with
    | zero => rfl
    | succ j =>
      show (none :: List.replicate m none).getD (j + 1) none = none
      rw [List.getD_cons_succ]
      exact ih j

/-- Reading a slot of a filled series: the temperature of the last row
written at that hour, if any. -/
theorem slotAt_fillSlots (rows : List Row) (h : Fin 24) :
    slotAt (fillSlots rows) h
      = lastHit (fun r => if r.hour = h then some r.temp else none) rows := by
  show ((rows.foldl _ (List.replicate 24 none)).getD h.val none) = _
  rw [fillSlots_foldl_getD h rows (List.replicate 24 none) (List.length_replicate ..)]
  cases lastHit (fun r => if r.hour = h then some r.temp else none) rows with
  | some t => rfl
  | none => exact getD_replicate_none 24 h.val

theorem length_fillSlots (rows : List Row) : (fillSlots rows).length = 24 := by
  have haux : ∀ (rs : List Row) (init : List (Option Int)),
      (rs.foldl (fun acc r => acc.set r.hour.val (some r.temp)) init).length
        = init.length := by
    intro rs
    induction rs with
    | nil => intro init; rfl
    | cons r rest ih =>
      intro init
      show (rest.foldl _ (init.set r.hour.val (some r.temp))).length = _
      rw [ih (init.set r.hour.val (some r.temp)), List.length_set]
  show (List.foldl _ (List.replicate 24 none) rows).length = 24
  rw [haux rows (List.replicate 24 none), List.length_replicate]

/-- Any temperature a filled series serves comes from one of its rows. -/
theorem mem_fillSlots (rows : List Row) (v : Int) (h : some v ∈ fillSlots rows) :
    ∃ r ∈ rows, r.temp = v := by
  have haux : ∀ (rs : List Row) (init : List (Option Int)),
      some v ∈ rs.foldl (fun acc r => acc.set r.hour.val (some r.temp)) init →
        some v ∈ init ∨ ∃ r ∈ rs, r.temp = v := by
    intro rs
    induction rs with
    | nil => intro init hmem; exact Or.inl hmem
    | cons r rest ih =>
      intro init hmem
      rcases ih (init.set r.hour.val (some r.temp)) hmem with hset | ⟨r', hr', hv⟩
      · rcases List.mem_or_eq_of_mem_set hset with hinit | heq
        · exact Or.inl hinit
        · exact Or.inr ⟨r, List.mem_cons_self r rest, (Option.some.inj heq).symm⟩
      · exact Or.inr ⟨r', List.mem_cons_of_mem r hr', hv⟩
  rcases haux rows (List.replicate 24 none) h with hinit | hrow
  · exact absurd (List.eq_of_mem_replicate hinit) (by simp)
  · exact hrow

theorem minFetch_isSome : ∀ (l : List Row), l ≠ [] → ∃ r, minFetch l = some r := by
  intro l hne
  cases l with
  | nil => exact absurd rfl hne
  | cons x rest =>
    unfold minFetch
    cases minFetch rest with
    | none => exact ⟨x, rfl⟩
    | some s =>
      by_cases hlt : s.fetch < x.fetch
      · exact ⟨s, by
          show (if s.fetch < x.fetch then some s else some x) = some s
          rw [if_pos hlt]⟩
      · exact ⟨x, by
          show (if s.fetch < x.fetch then some s else some x) = some x
          rw [if_neg hlt]⟩

theorem minFetch_mem : ∀ (l : List Row) (r : Row), minFetch l = some r → r ∈ l := by
  intro l
  induction l with
  | nil => intro r h; cases h
  | cons x rest ih =>
    intro r h
    unfold minFetch at h
    cases hm : minFetch rest with
    | none =>
      simp only [hm] at h
      cases h
      exact List.mem_cons_self x rest
    | some s =>
      simp only [hm] at h
      by_cases hlt : s.fetch < x.fetch
      · rw [if_pos hlt] at h
        cases h
        exact List.mem_cons_of_mem x (ih r hm)
      · rw [if_neg hlt] at h
        cases h
        exact List.mem_cons_self x rest

theorem minFetch_le : ∀ (l : List Row) (r : Row), minFetch l = some r →
    ∀ s ∈ l, r.fetch ≤ s.fetch := by
  intro l
  induction l with
  | nil => intro r _ s hs; cases hs
  | cons x rest ih =>
    intro r h s hs
    unfold minFetch at h
    cases hm : minFetch rest with
    | none =>
      simp only [hm] at h
      cases h
      rcases List.mem_cons.mp hs with rfl | hs'
      · exact le_refl _
      · rcases minFetch_isSome rest (fun hemp => by rw [hemp] at hs'; cases hs') with ⟨m, hm'⟩
        rw [hm'] at hm
        cases hm
    | some m =>
      simp only [hm] at h
      rcases List.mem_cons.mp hs with rfl | hs'
      · by_cases hlt : m.fetch < s.fetch
        · rw [if_pos hlt] at h
          cases h
          exact le_of_lt hlt
        · rw [if_neg hlt] at h
          cases h
          exact le_refl _
      · by_cases hlt : m.fetch < x.fetch
        · rw [if_pos hlt] at h
          cases h
          exact ih r hm s hs'
        · rw [if_neg hlt] at h
          cases h
          exact le_trans (le_of_not_lt hlt) (ih m hm s hs')

theorem slotAt_forecastSeries (db : List Row) (c : String) (d : Day) (h : Fin 24) :
    slotAt (forecastSeries db c d) h = forecastSlot db c d h := by
  unfold slotAt forecastSeries
  have hlen : h.val < (List.ofFn fun h : Fin 24 => forecastSlot db c d h).length := by
    rw [List.length_ofFn]
    exact h.isLt
  rw [List.getD_eq_getElem _ _ hlen, List.getElem_ofFn]

theorem mem_forecastCandidates (db : List Row) (c : String) (d : Day) (h : Fin 24)
    (r : Row) :
    r ∈ forecastCandidates db c d h
      ↔ r ∈ db ∧ r.city = c ∧ r.target = d ∧ r.fetch < d ∧ r.hour = h := by
  unfold forecastCandidates forecastPool
  rw [List.mem_filter, List.mem_filter, decide_eq_true_iff, decide_eq_true_iff]
  constructor
  · rintro ⟨⟨hdb, hc, ht, hf⟩, hh⟩
    exact ⟨hdb, hc, ht, hf, hh⟩
  · rintro ⟨hdb, hc, ht, hf, hh⟩
    exact ⟨⟨hdb, hc, ht, hf⟩, hh⟩

/-- Values served by a forecast slot come from forecast candidates. -/
theorem forecastSlot_eq_some (db : List Row) (c : String) (d : Day) (h : Fin 24)
    (v : Int) (hv : forecastSlot db c d h = some v) :
    ∃ m ∈ forecastCandidates db c d h, m.temp = v := by
  unfold forecastSlot at hv
  cases hm : minFetch (forecastCandidates db c d h) with
  | none => rw [hm] at hv; cases hv
  | some m =>
    rw [hm] at hv
    exact ⟨m, minFetch_mem _ m hm, Option.some.inj hv⟩

/-! ## Claim theorems -/

/-- Claim C1, counterexample: "Paris" is not in the configured city
list, yet `GET /api/weather/Paris` does not signal "not found" — the
route has no city check and answers 200 with a (here all-null) result
body. -/
theorem weather_unknown_city_not_404 :
    "Paris" ∉ cities ∧ handleWeather (some []) "Paris" 0 ≠ ApiResponse.notFound := by
  constructor
  · decide
  · intro hcon
    simp [handleWeather] at hcon

/-- Claim C1, amended: the query route performs no membership check of
the requested city name against the configured list: with storage
readable it answers 200 with a result body for every city name
(configured or not), and it never produces the "not found" outcome;
only a storage read failure produces the distinct "storage error"
(500) outcome. -/
theorem weather_query_no_notfound (db : List Row) (city : String) (now : Nat) :
    (∃ res, handleWeather (some db) city now = ApiResponse.ok res)
      ∧ handleWeather none city now = ApiResponse.storageError
      ∧ handleWeather (some db) city now ≠ ApiResponse.notFound := by
  refine ⟨⟨_, rfl⟩, rfl, ?_⟩
  intro hcon
  simp [handleWeather] at hcon

/-- Claim C3: the actual slot at hour `h` for city `c` and target date
`d` is populated exactly when the table holds a sample with that city
and hour satisfying `target_date = d` and `fetch_date = d`; in
particular a sample fetched on day `d` for a different target date
never appears in the actual series of `d`. -/
theorem actual_slot_iff (db : List Row) (c : String) (d : Day) (h : Fin 24) :
    slotAt (actualSeries db c d) h ≠ none
      ↔ ∃ r, r ∈ db ∧ r.city = c ∧ r.target = d ∧ r.fetch = d ∧ r.hour = h := by
  unfold actualSeries
  rw [Ne, slotAt_fillSlots, lastHit_eq_none_iff]
  push_neg
  constructor
  · rintro ⟨r, hr, hf⟩
    have hmem := List.mem_filter.mp hr
    have hprops := decide_eq_true_iff.mp hmem.2
    have hhour : r.hour = h := by
      by_contra hne
      exact hf (if_neg hne)
    exact ⟨r, hmem.1, hprops.1, hprops.2.1, hprops.2.2, hhour⟩
  · rintro ⟨r, hdb, hc, ht, hfd, hh⟩
    refine ⟨r, List.mem_filter.mpr ⟨hdb, decide_eq_true_iff.mpr ⟨hc, ht, hfd⟩⟩, ?_⟩
    rw [if_pos hh]
    exact fun hcon => Option.noConfusion hcon

/-- Claim C3, witness: in a table holding an actual sample for
("Prague", day 5, hour 3) and a sample fetched on day 5 for target
day 6 at hour 4, the actual slot (5, 3) is populated and the actual
slot (6, 4) is not. -/
theorem actual_slot_iff_witness :
    slotAt (actualSeries
        [⟨"Prague", 5, 5, 3, 21⟩, ⟨"Prague", 5, 6, 4, 9⟩] "Prague" 5) 3 ≠ none
      ∧ slotAt (actualSeries
        [⟨"Prague", 5, 5, 3, 21⟩, ⟨"Prague", 5, 6, 4, 9⟩] "Prague" 6) 4 = none := by
  constructor
  · exact (actual_slot_iff [⟨"Prague", 5, 5, 3, 21⟩, ⟨"Prague", 5, 6, 4, 9⟩]
      "Prague" 5 3).mpr ⟨⟨"Prague", 5, 5, 3, 21⟩, by decide, rfl, rfl, rfl, rfl⟩
  · by_contra hcon
    have := (actual_slot_iff [⟨"Prague", 5, 5, 3, 21⟩, ⟨"Prague", 5, 6, 4, 9⟩]
      "Prague" 6 4).mp hcon
    revert this
    decide

/-- Claim C5: retention cleanup keeps exactly the samples whose
`fetch_date` is not older than now minus 14 days (deleting precisely
the others, with no other change), and running it twice equals running
it once. -/
theorem cleanup_retention (db : List Row) (now : Nat) :
    (∀ r, r ∈ cleanupOldData db now ↔ r ∈ db ∧ ¬ r.fetch < utcDay now - 14)
      ∧ cleanupOldData (cleanupOldData db now) now = cleanupOldData db now := by
  constructor
  · intro r
    unfold cleanupOldData
    rw [List.mem_filter, decide_eq_true_iff]
  · unfold cleanupOldData
    rw [List.filter_filter]
    exact List.filter_congr fun a _ => Bool.and_self _

/-- Claim C5, witness: at a `now` on day 20, the sample fetched on day
5 (today minus 15) is deleted and the sample fetched on day 7 (today
minus 13) is retained. -/
theorem cleanup_retention_witness :
    (⟨"Brno", 5, 5, 0, 1⟩ : Row)
        ∉ cleanupOldData [⟨"Brno", 5, 5, 0, 1⟩, ⟨"Brno", 7, 7, 0, 2⟩] 28800
      ∧ (⟨"Brno", 7, 7, 0, 2⟩ : Row)
        ∈ cleanupOldData [⟨"Brno", 5, 5, 0, 1⟩, ⟨"Brno", 7, 7, 0, 2⟩] 28800 := by
  have h := cleanup_retention [⟨"Brno", 5, 5, 0, 1⟩, ⟨"Brno", 7, 7, 0, 2⟩] 28800
  constructor
  · intro hmem
    have := (h.1 ⟨"Brno", 5, 5, 0, 1⟩).mp hmem
    revert this
    decide
  · exact (h.1 ⟨"Brno", 7, 7, 0, 2⟩).mpr (by decide)

/-- Claim C2: in a key-unique table, whenever the forecast candidates
for city `c`, target date `d` and hour `h` (samples with
`target_date = d` and `fetch_date < d`) contain a sample `r` of
minimal `fetch_date`, the forecast slot at index `h` of the served
series holds exactly `r`'s temperature — the earliest prediction
wins. -/
theorem forecast_earliest_wins (db : List Row) (c : String) (d : Day) (h : Fin 24)
    (r : Row) (hu : NoDupKeys db) (hr : r ∈ forecastCandidates db c d h)
    (hmin : ∀ s ∈ forecastCandidates db c d h, r.fetch ≤ s.fetch) :
    slotAt (forecastSeries db c d) h = some r.temp := by
  rw [slotAt_forecastSeries]
  obtain ⟨m, hm⟩ := minFetch_isSome (forecastCandidates db c d h)
    (List.ne_nil_of_mem hr)
  have hmmem : m ∈ forecastCandidates db c d h := minFetch_mem _ m hm
  have hfetch : r.fetch = m.fetch :=
    le_antisymm (hmin m hmmem) (minFetch_le _ m hm r hr)
  have hrprops := (mem_forecastCandidates db c d h r).mp hr
  have hmprops := (mem_forecastCandidates db c d h m).mp hmmem
  have hkey : rkey r = rkey m := by
    unfold rkey
    rw [hrprops.2.1, hmprops.2.1, hrprops.2.2.1, hmprops.2.2.1,
      (Fin.ext_iff.mpr rfl : r.hour = r.hour)]
    rw [hrprops.2.2.2.2, hmprops.2.2.2.2, hfetch]
  have hrm : r = m := rkey_inj hu hrprops.1 hmprops.1 hkey
  unfold forecastSlot
  rw [hm, hrm]
  rfl

/-- Claim C2, witness: with forecasts for ("Berlin", day 10, hour 6)
fetched on day 7 (d-3, temperature 100) and day 9 (d-1, temperature
200), the served forecast slot is the day-7 value 100. -/
theorem forecast_earliest_wins_witness :
    slotAt (forecastSeries
      [⟨"Berlin", 7, 10, 6, 100⟩, ⟨"Berlin", 9, 10, 6, 200⟩] "Berlin" 10) 6
      = some 100 :=
  forecast_earliest_wins
    [⟨"Berlin", 7, 10, 6, 100⟩, ⟨"Berlin", 9, 10, 6, 200⟩] "Berlin" 10 6
    ⟨"Berlin", 7, 10, 6, 100⟩ (by unfold NoDupKeys; decide) (by decide) (by decide)

/-- Claim C8: every row a call of `storeWeatherData` adds or rewrites
carries the single fetch date computed at its entry —
`getLocalDate(0)`, the calendar date of `now` under the fixed UTC+1
offset — and that local date differs from the wall-clock UTC date for
some instants (the hour before each midnight UTC). -/
theorem fetch_date_once_per_city :
    (∀ (db : List Row) (c : String) (wd : Option WeatherData) (now : Nat)
        (db' : List Row),
        storeWeatherData db c wd now = Except.ok db' →
          ∀ r ∈ db', r ∈ db ∨ r.fetch = getLocalDate now 0)
      ∧ (∃ t : Nat, getLocalDate t 0 ≠ utcDay t) := by
  constructor
  · have hupsert : ∀ (db : List Row) (x r : Row), r ∈ upsert db x →
        r ∈ db ∨ r.fetch = x.fetch := by
      intro db x r hr
      unfold upsert at hr
      by_cases hk : hasKey db (rkey x) = true
      · rw [if_pos hk] at hr
        rcases List.mem_map.mp hr with ⟨s, hs, rfl⟩
        unfold updateWith
        by_cases hks : rkey s = rkey x
        · rw [if_pos hks]
          refine Or.inr ?_
          show s.fetch = x.fetch
          exact congrArg (fun k => k.2.1) hks
        · rw [if_neg hks]
          exact Or.inl hs
      · rw [if_neg hk] at hr
        rcases List.mem_append.mp hr with hs | hs
        · exact Or.inl hs
        · rw [List.mem_singleton] at hs
          exact Or.inr (by rw [hs])
    have hstore : ∀ (rows : List Row) (fd : Day), (∀ x ∈ rows, x.fetch = fd) →
        ∀ (db : List Row) (r : Row), r ∈ storeRows db rows →
          r ∈ db ∨ r.fetch = fd := by
      intro rows
      induction rows with
      | nil => intro fd _ db r hr; exact Or.inl hr
      | cons x rest ih =>
        intro fd hall db r hr
        have hr' : r ∈ storeRows (upsert db x) rest := hr
        rcases ih fd (fun y hy => hall y (List.mem_cons_of_mem x hy))
            (upsert db x) r hr' with hmem | hf
        · rcases hupsert db x r hmem with hmem' | hf'
          · exact Or.inl hmem'
          · exact Or.inr (hf'.trans (hall x (List.mem_cons_self x rest)))
        · exact Or.inr hf
    intro db c wd now db' hok r hr
    match wd with
    | none =>
      cases hok
      exact Or.inl hr
    | some ⟨none⟩ =>
      cases hok
      exact Or.inl hr
    | some ⟨some ⟨none, temps?⟩⟩ =>
      cases hok
    | some ⟨some ⟨some times, none⟩⟩ =>
      match times, hok with
      | [], hok =>
        cases hok
        exact Or.inl hr
    | some ⟨some ⟨some times, some temps⟩⟩ =>
      cases hok
      refine hstore (rowsOf c (getLocalDate now 0) times temps) (getLocalDate now 0)
        ?_ db r hr
      intro x hx
      rcases mem_zipWith_elim _ times temps x hx with ⟨a, b, _, _, rfl⟩
      rfl
  · exact ⟨1380, by decide⟩

/-- Claim C8, witness: ingesting the one-sample response at `now = 0`
stores only rows with `fetch_date = getLocalDate 0 0`. -/
theorem fetch_date_once_per_city_witness :
    (⟨"Prague", 0, 0, 12, 5⟩ : Row) ∈ ([] : List Row)
      ∨ (⟨"Prague", 0, 0, 12, 5⟩ : Row).fetch = getLocalDate 0 0 :=
  fetch_date_once_per_city.1 [] "Prague" (some wdGood) 0
    [⟨"Prague", 0, 0, 12, 5⟩] (by rfl) ⟨"Prague", 0, 0, 12, 5⟩ (by decide)

/-- Claim C10: the actual selection (`fetch_date = d`) and the forecast
selection (`fetch_date < d`) of the query for a target date `d` are
mutually exclusive — no stored row belongs to both. -/
theorem actual_forecast_disjoint (db : List Row) (c : String) (d : Day) (r : Row)
    (h : r ∈ actualRows db c d) : r ∉ forecastPool db c d := by
  intro hf
  have h1 := decide_eq_true_iff.mp (List.mem_filter.mp h).2
  have h2 := decide_eq_true_iff.mp (List.mem_filter.mp hf).2
  exact absurd (h1.2.2 ▸ h2.2.2) (lt_irrefl d)

/-- Claim C10, witness: the concrete actual sample ("Prague", day 5)
is selected by the actual query and excluded from the forecast pool of
the same day. -/
theorem actual_forecast_disjoint_witness :
    (⟨"Prague", 5, 5, 3, 21⟩ : Row)
      ∉ forecastPool [⟨"Prague", 5, 5, 3, 21⟩] "Prague" 5 :=
  actual_forecast_disjoint [⟨"Prague", 5, 5, 3, 21⟩] "Prague" 5
    ⟨"Prague", 5, 5, 3, 21⟩ (by decide)

/-- Claim C4: the conflict tuple (city, fetch_date, target_date, hour)
stays unique across ingestion, and ingesting the same upstream
response again for the same city and fetch date leaves the stored
state exactly as after the first ingestion; moreover an upsert hitting
an existing tuple overwrites its temperature without adding a row. -/
theorem upsert_unique_idempotent :
    (∀ (db : List Row) (c : String) (wd : Option WeatherData) (now : Nat)
        (db' : List Row),
        NoDupKeys db → storeWeatherData db c wd now = Except.ok db' →
          NoDupKeys db' ∧ storeWeatherData db' c wd now = Except.ok db')
      ∧ (∀ (db : List Row) (r : Row), hasKey db (rkey r) = true →
          (upsert db r).length = db.length
            ∧ ∃ s ∈ upsert db r, rkey s = rkey r ∧ s.temp = r.temp) := by
  constructor
  · intro db c wd now db' hu hok
    match wd with
    | none =>
      cases hok
      exact ⟨hu, rfl⟩
    | some ⟨none⟩ =>
      cases hok
      exact ⟨hu, rfl⟩
    | some ⟨some ⟨none, temps?⟩⟩ => cases hok
    | some ⟨some ⟨some times, none⟩⟩ =>
      match times, hok with
      | [], hok =>
        cases hok
        exact ⟨hu, rfl⟩
    | some ⟨some ⟨some times, some temps⟩⟩ =>
      cases hok
      refine ⟨noDupKeys_storeRows _ db hu, ?_⟩
      show Except.ok
          (storeRows (storeRows db (rowsOf c (getLocalDate now 0) times temps))
            (rowsOf c (getLocalDate now 0) times temps))
        = Except.ok (storeRows db (rowsOf c (getLocalDate now 0) times temps))
      rw [storeRows_idem]
  · intro db r hk
    refine ⟨by rw [upsert_of_hasKey hk, List.length_map], ?_⟩
    rcases List.mem_map.mp ((hasKey_iff db (rkey r)).mp hk) with ⟨s₀, hs₀, hk₀⟩
    refine ⟨updateWith r s₀, ?_, ?_, ?_⟩
    · rw [upsert_of_hasKey hk]
      exact List.mem_map_of_mem _ hs₀
    · rw [rkey_updateWith]
      exact hk₀
    · unfold updateWith
      rw [if_pos hk₀]

/-- Claim C4, witness: ingesting the one-sample response into the
empty table yields a key-unique table, and ingesting it a second time
returns that same table unchanged. -/
theorem upsert_unique_idempotent_witness :
    NoDupKeys [⟨"Prague", 0, 0, 12, 5⟩]
      ∧ storeWeatherData [⟨"Prague", 0, 0, 12, 5⟩] "Prague" (some wdGood) 0
          = Except.ok [⟨"Prague", 0, 0, 12, 5⟩] :=
  upsert_unique_idempotent.1 [] "Prague" (some wdGood) 0 [⟨"Prague", 0, 0, 12, 5⟩]
    (by unfold NoDupKeys; decide) (by rfl)

/-- Claim C6, counterexample: in an environment where Prague's response
carries an `hourly` object without its `time` array, the ingestion
batch crashes at Prague with nothing stored — it does not continue
with the remaining cities even though (for example) Brno's response was
well-formed and storable. -/
theorem ingest_batch_aborts_on_missing_time :
    fetchAllCities rspCrash 0 [] = BatchOutcome.crashed []
      ∧ storeWeatherData [] "Brno" (rspCrash "Brno") 0
          = Except.ok [⟨"Brno", 0, 0, 12, 5⟩] := by
  constructor
  · rfl
  · rfl

/-- Claim C6, amended: a transport failure (fetch returned `null`) or a
response missing the whole `hourly` object causes only that city to be
logged and skipped, the batch continuing unchanged with the remaining
cities; but a response whose `hourly` object lacks its `time` array
(or has a non-empty `time` with `temperature_2m` missing) throws and
aborts the rest of the batch. -/
theorem ingest_skips_failed_city (rsp : String → Option WeatherData) (now : Nat)
    (c : String) (cs : List String) (db : List Row)
    (h : rsp c = none ∨ rsp c = some ⟨none⟩) :
    runBatch rsp now (c :: cs) db = runBatch rsp now cs db := by
  rcases h with h | h
  · show (match storeWeatherData db c (rsp c) now with
      | .error _ => BatchOutcome.crashed db
      | .ok db' => runBatch rsp now cs db') = runBatch rsp now cs db
    rw [h]
    rfl
  · show (match storeWeatherData db c (rsp c) now with
      | .error _ => BatchOutcome.crashed db
      | .ok db' => runBatch rsp now cs db') = runBatch rsp now cs db
    rw [h]
    rfl

/-- Claim C6 (amended), witness: with Prague's fetch failing, the batch
over ["Prague", "Brno"] equals the batch over ["Brno"] alone. -/
theorem ingest_skips_failed_city_witness :
    runBatch rspSkip 0 ["Prague", "Brno"] [] = runBatch rspSkip 0 ["Brno"] [] :=
  ingest_skips_failed_city rspSkip 0 "Prague" ["Brno"] [] (Or.inl (by rfl))

/-- Claim C7, counterexample: the value the ingestion run hands to its
caller is the same constant success answer whether every city's fetch
succeeded or every city's fetch failed — it carries no per-city
success/failure report. -/
theorem fetch_report_identical_outcomes :
    (handleFetch rspAllGood 0 []).fst = FetchResponse.success
      ∧ (handleFetch rspAllFail 0 []).fst = FetchResponse.success
      ∧ (handleFetch rspAllGood 0 []).fst = (handleFetch rspAllFail 0 []).fst := by
  refine ⟨by rfl, by rfl, by rfl⟩

/-- Claim C7, amended: the ingestion entry point returns no per-city
report: on any batch that runs to completion its caller receives the
constant success answer, independent of the per-city outcomes (which
are only logged). -/
theorem fetch_caller_report_constant (rsp : String → Option WeatherData) (now : Nat)
    (db db' : List Row) (h : fetchAllCities rsp now db = BatchOutcome.completed db') :
    (handleFetch rsp now db).fst = FetchResponse.success := by
  unfold handleFetch
  rw [h]

/-- Claim C7 (amended), witness: a batch in which every fetch failed
still completes and answers the constant success value. -/
theorem fetch_caller_report_constant_witness :
    (handleFetch rspAllFail 1 []).fst = FetchResponse.success :=
  fetch_caller_report_constant rspAllFail 1 [] [] (by rfl)

theorem length_forecastSeries (db : List Row) (c : String) (d : Day) :
    (forecastSeries db c d).length = 24 := by
  unfold forecastSeries
  exact List.length_ofFn _

theorem value_from_actual (db : List Row) (c : String) (d : Day) (v : Int)
    (hv : some v ∈ actualSeries db c d) : ∃ r ∈ db, r.city = c ∧ r.temp = v := by
  rcases mem_fillSlots _ v hv with ⟨r, hr, htemp⟩
  have hm := List.mem_filter.mp hr
  exact ⟨r, hm.1, (decide_eq_true_iff.mp hm.2).1, htemp⟩

theorem value_from_forecast (db : List Row) (c : String) (d : Day) (v : Int)
    (hv : some v ∈ forecastSeries db c d) : ∃ r ∈ db, r.city = c ∧ r.temp = v := by
  rcases (List.mem_ofFn _ _).mp hv with ⟨h, hf⟩
  rcases forecastSlot_eq_some db c d h v hf with ⟨m, hm, htemp⟩
  have hp := (mem_forecastCandidates db c d h m).mp hm
  exact ⟨m, hp.1, hp.2.1, htemp⟩

theorem slots_none_actual (db : List Row) (c : String) (d : Day)
    (habs : ∀ r ∈ db, r.city ≠ c) : ∀ s ∈ actualSeries db c d, s = none := by
  intro s hs
  have hnil : actualRows db c d = [] :=
    List.filter_eq_nil_iff.mpr
      (fun a ha hdec => habs a ha (decide_eq_true_iff.mp hdec).1)
  have hrepl : actualSeries db c d = List.replicate 24 none := by
    unfold actualSeries
    rw [hnil]
    rfl
  rw [hrepl] at hs
  exact List.eq_of_mem_replicate hs

theorem slots_none_forecast (db : List Row) (c : String) (d : Day)
    (habs : ∀ r ∈ db, r.city ≠ c) : ∀ s ∈ forecastSeries db c d, s = none := by
  intro s hs
  rcases (List.mem_ofFn _ _).mp hs with ⟨h, hf⟩
  have hnil : forecastPool db c d = [] :=
    List.filter_eq_nil_iff.mpr
      (fun a ha hdec => habs a ha (decide_eq_true_iff.mp hdec).1)
  rw [← hf]
  unfold forecastSlot forecastCandidates
  rw [hnil]
  rfl

/-- Claim C9: every query against readable storage answers 200 with
four fixed-length 24-slot series whose entries are `Option` values —
`none` is the explicit absent marker and any `some` value is the
temperature of a stored sample of the requested city (never a default
zero); a city with no stored samples yields all-absent series rather
than an error. -/
theorem query_result_shape (db : List Row) (city : String) (now : Nat) :
    ∃ res, handleWeather (some db) city now = ApiResponse.ok res
      ∧ (res.todayActual.length = 24 ∧ res.yesterdayActual.length = 24
          ∧ res.todayForecast.length = 24 ∧ res.yesterdayForecast.length = 24)
      ∧ (∀ v : Int,
          (some v ∈ res.todayActual ∨ some v ∈ res.yesterdayActual
            ∨ some v ∈ res.todayForecast ∨ some v ∈ res.yesterdayForecast) →
          ∃ r ∈ db, r.city = city ∧ r.temp = v)
      ∧ ((∀ r ∈ db, r.city ≠ city) →
          ∀ s, (s ∈ res.todayActual ∨ s ∈ res.yesterdayActual
            ∨ s ∈ res.todayForecast ∨ s ∈ res.yesterdayForecast) → s = none) := by
  refine ⟨_, rfl, ⟨?_, ?_, ?_, ?_⟩, ?_, ?_⟩
  · exact length_fillSlots _
  · exact length_fillSlots _
  · exact length_forecastSeries db city _
  · exact length_forecastSeries db city _
  · intro v hv
    rcases hv with hv | hv | hv | hv
    · exact value_from_actual db city _ v hv
    · exact value_from_actual db city _ v hv
    · exact value_from_forecast db city _ v hv
    · exact value_from_forecast db city _ v hv
  · intro habs s hs
    rcases hs with hs | hs | hs | hs
    · exact slots_none_actual db city _ habs s hs
    · exact slots_none_actual db city _ habs s hs
    · exact slots_none_forecast db city _ habs s hs
    · exact slots_none_forecast db city _ habs s hs

/-- Claim C9, witness: querying the configured city "Brno" against an
empty table answers 200 with an all-absent today-actual series. -/
theorem query_result_shape_witness :
    ∃ res, handleWeather (some []) "Brno" 0 = ApiResponse.ok res
      ∧ ∀ s ∈ res.todayActual, s = none := by
  rcases query_result_shape [] "Brno" 0 with ⟨res, hres, _, _, habs⟩
  exact ⟨res, hres,
    fun s hs => habs (fun r hr => absurd hr (List.not_mem_nil r)) s (Or.inl hs)⟩

end Zephyr
